import Mathlib

/-!
Verification of the epoll event-aggregation core of `lib/posix-poll/epoll.c`
(unikraft).  The C file is shallowly embedded: each C function that the
claims mention becomes a Lean function of the same name, operating on an
explicit aggregator state.  Machine `unsigned int` event words are modelled
as `Nat` bit masks (all event constants fit in 32 bits and no arithmetic
overflow is possible: the code only uses `&`, `|` and exchanges).

External collaborators (the pollqueue, the vnode poll operation, the fd
table, allocation) are not part of `src/`; their results enter the model as
explicit oracle arguments, constrained in theorems exactly by the contracts
the specification states for them.
-/

namespace EpollModel

/-! ### Event mask constants

The numeric values of the `EPOLL*` bits and the `UKFD_*` aliases live in
headers outside `src/`.  Modelled from the spec: interest classes are
readable, writable, read-hangup, priority; options are edge-triggered,
one-shot, wakeup, exclusive; the always-on housekeeping bits force
error/hangup delivery regardless of interest.  The concrete values are the
Linux ABI values the spec calls "wire-identical to the reference OS". -/

def EPOLLIN : Nat := 0x001
def EPOLLPRI : Nat := 0x002
def EPOLLOUT : Nat := 0x004
def EPOLLERR : Nat := 0x008
def EPOLLHUP : Nat := 0x010
def EPOLLRDHUP : Nat := 0x2000
def EPOLLEXCLUSIVE : Nat := 0x10000000
def EPOLLWAKEUP : Nat := 0x20000000
def EPOLLONESHOT : Nat := 0x40000000
def EPOLLET : Nat := 0x80000000

def UKFD_POLLIN : Nat := EPOLLIN
def UKFD_POLLOUT : Nat := EPOLLOUT
/-- Modelled from the spec: the always-on housekeeping bits are the
implicit error and hangup bits (`hangup-implicit-always`,
`error-implicit-always`). -/
def UKFD_POLL_ALWAYS : Nat := EPOLLERR ||| EPOLLHUP

/-- `#define EPOLL_EVENTS` of epoll.c. -/
def EPOLL_EVENTS : Nat :=
  UKFD_POLLIN ||| UKFD_POLLOUT ||| EPOLLRDHUP ||| EPOLLPRI ||| UKFD_POLL_ALWAYS

/-- `#define events2mask(ev) (((ev) & EPOLL_EVENTS) | UKFD_POLL_ALWAYS)` -/
def events2mask (ev : Nat) : Nat := (ev &&& EPOLL_EVENTS) ||| UKFD_POLL_ALWAYS

/-! ### Error codes (negative magnitudes at the syscall boundary) -/

def EEXIST : Int := 17
def ENOENT : Int := 2
def EINVAL : Int := 22
def EFAULT : Int := 14
def ENOSYS : Int := 38
def ENOMEM : Int := 12

/-! ### Data model -/

/-- `struct epoll_event`: 32-bit event mask plus opaque user datum. -/
structure EpollEvent where
  events : Nat
  data : Nat
deriving DecidableEq, Repr

/-- `struct epoll_entry`.  The C struct holds a union of the native fields
(`tick`, `revents`) and the legacy fields (`legacy_cb` with `mask` and
`revents`); here the union is flattened: `tickMask` models `tick.mask`
(native only), `legMask` models `legacy_cb.mask` (legacy only), and
`revents` models whichever accumulator the `legacy` discriminant selects.
`file` is the identity of the monitored file (`f` resp. `vf`).  `f_link`
records whether the legacy hook is linked on the monitored file's `f_ep`
epoll-link list (done by `uk_list_add_tail` on the successful-poll branch
of `vfs_poll_register` only). -/
structure EpollEntry where
  legacy : Bool
  fd : Int
  file : Nat
  event : EpollEvent
  tickMask : Nat
  legMask : Nat
  revents : Nat
  f_link : Bool := false
deriving DecidableEq, Repr

/-- `#define IS_EDGEPOLL(ent) (!!((ent)->event.events & EPOLLET))` -/
def IS_EDGEPOLL (e : EpollEntry) : Bool := (e.event.events &&& EPOLLET) != 0

/-- `#define IS_ONESHOT(ent) (!!((ent)->event.events & EPOLLONESHOT))` -/
def IS_ONESHOT (e : EpollEntry) : Bool := (e.event.events &&& EPOLLONESHOT) != 0

/-- Aggregator state: the entry list hanging off `epf->node` (in
registration order, appended at tail) together with the `UKFD_POLLIN` bit
of the aggregator's own pollqueue (`epf->state->pollq`), which is the only
event the aggregator file exposes. -/
structure EpollState where
  list : List EpollEntry
  pollin : Bool
deriving DecidableEq, Repr

/-- One output slot written by the extraction walk of
`uk_sys_epoll_pwait2`: `events[nout].events` and `events[nout].data`. -/
structure WaitSlot where
  events : Nat
  data : Nat
deriving DecidableEq, Repr

/-! ### Notification glue -/

/-- `epoll_event_callback`, the `UK_POLL_CHAINOP_SET` branch (the only one
with a body).  `set` is the bit set delivered by the monitored file's
pollqueue; the pollqueue contract restricts it to the hook's registered
mask (`tick->mask`), which theorems state as a hypothesis.  The returned
`Bool` records that `uk_pollq_set_n(upq, UKFD_POLLIN, ...)` was invoked on
the aggregator's pollqueue (the wake fan-out count does not affect the
state modelled here). -/
def epoll_event_callback (set : Nat) (e : EpollEntry) : EpollEntry × Bool :=
  let e2 := { e with revents := e.revents ||| set }
  let e3 := if IS_ONESHOT e2 then { e2 with tickMask := 0 } else e2
  (e3, true)

/-- `eventpoll_signal`: legacy upcall delivering raw `revents`.  Masks by
the stored hook mask; if nonzero, ORs into the accumulator and posts the
aggregator readable.  The `Bool` records whether
`uk_file_event_set(leg->epf, UKFD_POLLIN)` was called. -/
def eventpoll_signal (rv : Nat) (e : EpollEntry) : EpollEntry × Bool :=
  let rv := rv &&& e.legMask
  if rv != 0 then
    ({ e with revents := e.revents ||| rv }, true)
  else
    (e, false)

/-- `vfs_poll_register`.  `pollRes` is the oracle for
`vfs_poll` (= `VOP_POLL` on the vnode, external to `src/`): `.error r` a
nonzero return code, `.ok rv` success having written `rv` to `*revents`.
On error the accumulator is set to the synthetic `EPOLLERR`; on success
the sampled value is masked by `leg->mask` and, if nonzero, the aggregator
is posted readable (`pollin` result). On success the hook is also linked on
`vfd->f_ep`; that list is derived (see `f_ep`). -/
def vfs_poll_register (pollRes : Except Int Nat) (leg : EpollEntry)
    (pollin : Bool) : EpollEntry × Bool :=
  match pollRes with
  | .error _ => ({ leg with revents := EPOLLERR }, pollin)
  | .ok rv =>
    let leg := { leg with revents := rv &&& leg.legMask, f_link := true }
    (leg, pollin || (leg.revents != 0))

/-! ### Control operations -/

/-- `epoll_add` (native).  `sample` is the oracle for the monitored file's
current readiness; modelled from the spec:
`uk_pollq_poll_register(&f->state->pollq, &ent->tick, 1)` atomically links
the hook in and returns the current readiness against the hook's
registered mask, so the returned value is `sample &&& events2mask`.
If it is nonzero it is ORed into the fresh accumulator and the aggregator
is posted readable.  Allocation is assumed to succeed (`-ENOMEM` is out of
scope of the claims). -/
def epoll_add (fd : Int) (file : Nat) (event : EpollEvent) (sample : Nat)
    (s : EpollState) : Int × EpollState :=
  if s.list.any (fun e => e.fd == fd) then
    (-EEXIST, s)
  else
    let mask := events2mask event.events
    let ent : EpollEntry :=
      { legacy := false, fd := fd, file := file, event := event,
        tickMask := mask, legMask := 0, revents := 0 }
    let ev := sample &&& mask
    let ent := { ent with revents := ent.revents ||| ev }
    (0, { list := s.list ++ [ent],
          pollin := if ev != 0 then true else s.pollin })

/-- `epoll_add_legacy`.  Same duplicate scan and tail append; the entry is
initialised with the legacy hook record and then `vfs_poll_register` runs
with the vnode-poll oracle `pollRes`. -/
def epoll_add_legacy (fd : Int) (vf : Nat) (event : EpollEvent)
    (pollRes : Except Int Nat) (s : EpollState) : Int × EpollState :=
  if s.list.any (fun e => e.fd == fd) then
    (-EEXIST, s)
  else
    let ent : EpollEntry :=
      { legacy := true, fd := fd, file := vf, event := event,
        tickMask := 0, legMask := events2mask event.events, revents := 0 }
    let v := vfs_poll_register pollRes ent s.pollin
    (0, { list := s.list ++ [v.1], pollin := v.2 })

/-- `entry_mod` (native): swap the hook's mask to `events2mask` of the new
events via `uk_pollq_reregister`, store the new event record, reset the
accumulator to zero. -/
def entry_mod (event : EpollEvent) (e : EpollEntry) : EpollEntry :=
  { e with tickMask := events2mask event.events, event := event,
           revents := 0 }

/-- `entry_mod_legacy`: reset the accumulator, store the new mask and
event record, then re-run `vfs_poll_register` (re-sampling the file). -/
def entry_mod_legacy (event : EpollEvent) (pollRes : Except Int Nat)
    (e : EpollEntry) (pollin : Bool) : EpollEntry × Bool :=
  let e := { e with revents := 0, legMask := events2mask event.events,
                    event := event }
  vfs_poll_register pollRes e pollin

/-- Loop body of `epoll_mod`: walk the list for the first entry with the
given `fd` and dispatch to `entry_mod_legacy` or `entry_mod`; `-ENOENT`
when absent. -/
def epoll_mod_loop (fd : Int) (event : EpollEvent)
    (pollRes : Except Int Nat) :
    List EpollEntry → Bool → Int × List EpollEntry × Bool
  | [], pollin => (-ENOENT, [], pollin)
  | e :: rest, pollin =>
    if e.fd == fd then
      if e.legacy then
        let m := entry_mod_legacy event pollRes e pollin
        (0, m.1 :: rest, m.2)
      else
        (0, entry_mod event e :: rest, pollin)
    else
      let t := epoll_mod_loop fd event pollRes rest pollin
      (t.1, e :: t.2.1, t.2.2)

/-- `epoll_mod`. -/
def epoll_mod (fd : Int) (event : EpollEvent) (pollRes : Except Int Nat)
    (s : EpollState) : Int × EpollState :=
  let t := epoll_mod_loop fd event pollRes s.list s.pollin
  (t.1, { list := t.2.1, pollin := t.2.2 })

/-- `epoll_del`: unlink the first entry with the given `fd` (unregistering
its hook and freeing it are external effects), `-ENOENT` when absent. -/
def epoll_del (fd : Int) : List EpollEntry → Int × List EpollEntry
  | [] => (-ENOENT, [])
  | e :: rest =>
    if fd == e.fd then
      (0, rest)
    else
      let t := epoll_del fd rest
      (t.1, e :: t.2)

/-! ### vfscore shim: close notification -/

/-- The `f_ep` epoll-link list of a legacy monitored file: the legacy
hooks of the entries watching it that were linked by `uk_list_add_tail`
in `vfs_poll_register`, in the same order the entries were appended to
the registry, hence derived as a filter of the registry in order. -/
def f_ep (fp : Nat) (l : List EpollEntry) : List EpollEntry :=
  l.filter (fun e => e.legacy && e.file == fp && e.f_link)

/-- `eventpoll_notify_close`: iterate (safely) over every hook on the
closing file's `f_ep` list and, for each, unregister it and
`epoll_del(leg->epf, ent->fd)` the owning entry from its aggregator. -/
def eventpoll_notify_close (fp : Nat) (s : EpollState) : EpollState :=
  { s with
    list := (f_ep fp s.list).foldl (fun l e => (epoll_del e.fd l).2) s.list }

/-! ### Extraction engine -/

/-- Body of the gather loop of `uk_sys_epoll_pwait2` for one entry `p`:
atomically exchange the accumulator with zero; if the exchanged value is
nonzero and the entry is level-triggered, re-sample current readiness
against the effective mask (`now` is the oracle for the file's current raw
readiness: native `uk_file_poll_immediate(p->f, mask)`, legacy `vfs_poll`
followed by `&= mask` — both yield current readiness restricted to
`mask`); an empty re-sample skips the entry, otherwise the re-sample is
ORed back into the accumulator, flagged as `lvlev`, and delivered.
Returns (updated entry, output slot if any, `lvlev` contribution). -/
def epollGatherStep (now : Nat) (p : EpollEntry) :
    EpollEntry × Option WaitSlot × Bool :=
  let revents := p.revents
  let p := { p with revents := 0 }
  if revents != 0 then
    if !(IS_EDGEPOLL p) then
      let mask := events2mask p.event.events
      let cur := now &&& mask
      if cur = 0 then
        (p, none, false)
      else
        ({ p with revents := p.revents ||| cur },
         some ⟨cur, p.event.data⟩, true)
    else
      (p, some ⟨revents, p.event.data⟩, false)
  else
    (p, none, false)

/-- The gather walk (`for (p = *list; p && nout < maxevents; p = p->next)`)
over the registry with an output budget.  `pollNow i` is the readiness
oracle for the file of the entry at position `idx + i`.  Returns the
updated registry, the output slots in walk order, and the `lvlev` flag. -/
def epollGather (pollNow : Nat → Nat) :
    List EpollEntry → Nat → Nat → List EpollEntry × List WaitSlot × Bool
  | ents, _, 0 => (ents, [], false)
  | [], _, _ + 1 => ([], [], false)
  | p :: rest, idx, b + 1 =>
    let st := epollGatherStep (pollNow idx) p
    match st.2.1 with
    | some o =>
      let t := epollGather pollNow rest (idx + 1) b
      (st.1 :: t.1, o :: t.2.1, st.2.2 || t.2.2)
    | none =>
      let t := epollGather pollNow rest (idx + 1) (b + 1)
      (st.1 :: t.1, t.2.1, st.2.2 || t.2.2)

/-- One iteration of the wait loop body (steps 3-5 of the extraction
engine): `uk_file_event_clear(epf, UKFD_POLLIN)`, gather under the read
lock, then `uk_file_event_set(epf, UKFD_POLLIN)` exactly when `lvlev`. -/
def epoll_wait_pass (pollNow : Nat → Nat) (maxevents : Nat)
    (s : EpollState) : EpollState × List WaitSlot :=
  let g := epollGather pollNow s.list 0 maxevents
  ({ list := g.1, pollin := g.2.2 }, g.2.1)

/-- `uk_sys_epoll_pwait2`.  Boolean arguments model the raw pointer tests:
`volOk` is `epf->vol == EPOLL_VOLID`, `eventsNull` a NULL `events` buffer,
`sigmaskNull` a NULL `sigmask`; `timeout` is `none` for a NULL timeout
(block forever) or `some t` with `t` the signed-nanosecond conversion
`uk_time_spec_to_nsec(timeout)`.  `ready` is the oracle for the first
`uk_file_poll_until(epf, UKFD_POLLIN, deadline)`: the wait loop is
modelled as at most one extraction pass (when the pass yields no events
the C code re-blocks; no claim depends on later iterations). -/
def uk_sys_epoll_pwait2 (pollNow : Nat → Nat) (volOk : Bool)
    (eventsNull : Bool) (maxevents : Int) (sigmaskNull : Bool)
    (timeout : Option Int) (ready : Bool) (s : EpollState) :
    Int × EpollState × List WaitSlot :=
  if !volOk then (-EINVAL, s, [])
  else if eventsNull then (-EFAULT, s, [])
  else if maxevents ≤ 0 then (-EINVAL, s, [])
  else if !sigmaskNull then (-ENOSYS, s, [])
  else if (match timeout with | some t => decide (t < 0) | none => false) then
    (-EINVAL, s, [])
  else if ready then
    let pr := epoll_wait_pass pollNow maxevents.toNat s
    ((pr.2.length : Int), pr.1, pr.2)
  else
    (0, s, [])

/-! ### Mask-subset order and the accumulator invariant -/

/-- `subsetMask x m` states that the bit set `x` lies within the mask `m`
(`x & m == x`). -/
def subsetMask (x m : Nat) : Prop := x &&& m = x

instance (x m : Nat) : Decidable (subsetMask x m) :=
  inferInstanceAs (Decidable (_ = _))

theorem subsetMask_iff {x m : Nat} :
    subsetMask x m ↔ ∀ i, x.testBit i = true → m.testBit i = true := by
  constructor
  · intro h i hx
    have := congrArg (fun n => n.testBit i) h
    simp only [Nat.testBit_and, hx, Bool.true_and] at this
    exact this
  · intro h
    apply Nat.eq_of_testBit_eq
    intro i
    simp only [Nat.testBit_and]
    cases hx : x.testBit i with
    | false => simp
    | true => simp [h i hx]

theorem subsetMask_zero (m : Nat) : subsetMask 0 m := Nat.zero_and m

theorem subsetMask_refl (m : Nat) : subsetMask m m := Nat.and_self m

theorem subsetMask_and_left (x m : Nat) : subsetMask (x &&& m) m := by
  rw [subsetMask, Nat.and_assoc, Nat.and_self]

theorem subsetMask_or {x y m : Nat} (hx : subsetMask x m)
    (hy : subsetMask y m) : subsetMask (x ||| y) m := by
  rw [subsetMask_iff] at hx hy ⊢
  intro i h
  rw [Nat.testBit_or] at h
  rcases Bool.or_eq_true_iff.mp h with h | h
  · exact hx i h
  · exact hy i h

theorem subsetMask_trans {x m n : Nat} (hx : subsetMask x m)
    (hm : subsetMask m n) : subsetMask x n := by
  rw [subsetMask_iff] at hx hm ⊢
  intro i h
  exact hm i (hx i h)

theorem subsetMask_always_events2mask (ev : Nat) :
    subsetMask UKFD_POLL_ALWAYS (events2mask ev) := by
  rw [subsetMask_iff]
  intro i h
  rw [events2mask, Nat.testBit_or, h, Bool.or_true]

theorem subsetMask_epollerr_events2mask (ev : Nat) :
    subsetMask EPOLLERR (events2mask ev) :=
  subsetMask_trans (by decide) (subsetMask_always_events2mask ev)

/-- The effective mask of an entry: `(interest ∩ EPOLL_EVENTS) ∪
UKFD_POLL_ALWAYS` of its stored event record, i.e. `events2mask` as the
code applies it on registration. -/
def effMask (e : EpollEntry) : Nat := events2mask e.event.events

/-- Per-entry invariant: the accumulator lies within the effective mask;
a native entry's live hook mask (`tick.mask`) lies within the effective
mask (it is `events2mask` on registration and may be zeroed by one-shot);
a legacy entry's stored hook mask is exactly the effective mask. -/
def entryInv (e : EpollEntry) : Prop :=
  subsetMask e.revents (effMask e) ∧
    (e.legacy = false → subsetMask e.tickMask (effMask e)) ∧
    (e.legacy = true → e.legMask = effMask e)

instance (e : EpollEntry) : Decidable (entryInv e) :=
  inferInstanceAs (Decidable (_ ∧ _))

theorem entryInv_epoll_event_callback (set : Nat) (e : EpollEntry)
    (h : entryInv e) (hnat : e.legacy = false)
    (hset : subsetMask set e.tickMask) :
    entryInv (epoll_event_callback set e).1 := by
  obtain ⟨hr, ht, hl⟩ := h
  have hset2 : subsetMask set (effMask e) :=
    subsetMask_trans hset (ht hnat)
  have hor : subsetMask (e.revents ||| set) (effMask e) :=
    subsetMask_or hr hset2
  simp only [epoll_event_callback]
  split
  · exact ⟨hor, fun _ => subsetMask_zero _, fun hc => by simp [hnat] at hc⟩
  · exact ⟨hor, fun _ => ht hnat, fun hc => by simp [hnat] at hc⟩

theorem entryInv_eventpoll_signal (rv : Nat) (e : EpollEntry)
    (h : entryInv e) (hleg : e.legacy = true) :
    entryInv (eventpoll_signal rv e).1 := by
  obtain ⟨hr, ht, hl⟩ := h
  have hmask : subsetMask (rv &&& e.legMask) (effMask e) := by
    rw [hl hleg]; exact subsetMask_and_left _ _
  simp only [eventpoll_signal]
  split
  · exact ⟨subsetMask_or hr hmask, ht, hl⟩
  · exact ⟨hr, ht, hl⟩

theorem entryInv_vfs_poll_register (pollRes : Except Int Nat)
    (e : EpollEntry) (pollin : Bool) (hleg : e.legacy = true)
    (hl : e.legMask = effMask e) :
    entryInv (vfs_poll_register pollRes e pollin).1 := by
  cases pollRes with
  | error r =>
    refine ⟨?_, ?_, ?_⟩
    · exact subsetMask_epollerr_events2mask _
    · intro hc; rw [show (vfs_poll_register (.error r) e pollin).1.legacy
        = e.legacy from rfl, hleg] at hc; cases hc
    · intro _; exact hl
  | ok rv =>
    refine ⟨?_, ?_, ?_⟩
    · show subsetMask (rv &&& e.legMask) _
      rw [hl]; exact subsetMask_and_left _ _
    · intro hc; rw [show (vfs_poll_register (.ok rv) e pollin).1.legacy
        = e.legacy from rfl, hleg] at hc; cases hc
    · intro _; exact hl

theorem entryInv_entry_mod (event : EpollEvent) (e : EpollEntry)
    (hnat : e.legacy = false) : entryInv (entry_mod event e) := by
  refine ⟨subsetMask_zero _, fun _ => subsetMask_refl _, fun hc => ?_⟩
  simp [entry_mod, hnat] at hc

theorem entryInv_entry_mod_legacy (event : EpollEvent)
    (pollRes : Except Int Nat) (e : EpollEntry) (pollin : Bool)
    (hleg : e.legacy = true) :
    entryInv (entry_mod_legacy event pollRes e pollin).1 := by
  exact entryInv_vfs_poll_register pollRes _ pollin hleg rfl

theorem entryInv_epoll_mod_loop (fd : Int) (event : EpollEvent)
    (pollRes : Except Int Nat) (l : List EpollEntry) (pollin : Bool)
    (h : ∀ e ∈ l, entryInv e) :
    ∀ e ∈ (epoll_mod_loop fd event pollRes l pollin).2.1, entryInv e := by
  induction l generalizing pollin with
  | nil => intro e he; simp [epoll_mod_loop] at he
  | cons a rest ih =>
    intro e he
    simp only [epoll_mod_loop] at he
    split at he
    · rename_i hfd
      split at he
      · rename_i hleg
        simp only [List.mem_cons] at he
        rcases he with he | he
        · subst he; exact entryInv_entry_mod_legacy event pollRes a pollin hleg
        · exact h e (List.mem_cons_of_mem a he)
      · rename_i hleg
        simp only [List.mem_cons] at he
        rcases he with he | he
        · subst he
          exact entryInv_entry_mod event a (Bool.eq_false_iff.mpr hleg)
        · exact h e (List.mem_cons_of_mem a he)
    · simp only [List.mem_cons] at he
      rcases he with he | he
      · exact h e (List.mem_cons.mpr (Or.inl he))
      · exact ih pollin (fun x hx => h x (List.mem_cons_of_mem a hx)) e he

theorem entryInv_epoll_mod (fd : Int) (event : EpollEvent)
    (pollRes : Except Int Nat) (s : EpollState)
    (h : ∀ e ∈ s.list, entryInv e) :
    ∀ e ∈ (epoll_mod fd event pollRes s).2.list, entryInv e := by
  exact entryInv_epoll_mod_loop fd event pollRes s.list s.pollin h

theorem entryInv_epoll_add (fd : Int) (file : Nat) (event : EpollEvent)
    (sample : Nat) (s : EpollState) (h : ∀ e ∈ s.list, entryInv e) :
    ∀ e ∈ (epoll_add fd file event sample s).2.list, entryInv e := by
  intro e he
  simp only [epoll_add] at he
  split at he
  · exact h e he
  · simp only [List.mem_append, List.mem_singleton] at he
    rcases he with he | he
    · exact h e he
    · subst he
      refine ⟨?_, fun _ => subsetMask_refl _, fun hc => by simp at hc⟩
      show subsetMask (0 ||| (sample &&& events2mask event.events)) _
      rw [Nat.zero_or]
      exact subsetMask_and_left _ _

theorem entryInv_epoll_add_legacy (fd : Int) (vf : Nat)
    (event : EpollEvent) (pollRes : Except Int Nat) (s : EpollState)
    (h : ∀ e ∈ s.list, entryInv e) :
    ∀ e ∈ (epoll_add_legacy fd vf event pollRes s).2.list, entryInv e := by
  intro e he
  simp only [epoll_add_legacy] at he
  split at he
  · exact h e he
  · simp only [List.mem_append, List.mem_singleton] at he
    rcases he with he | he
    · exact h e he
    · subst he
      exact entryInv_vfs_poll_register pollRes _ s.pollin rfl rfl

theorem epoll_del_subset (fd : Int) (l : List EpollEntry) :
    ∀ e ∈ (epoll_del fd l).2, e ∈ l := by
  induction l with
  | nil => intro e he; simp [epoll_del] at he
  | cons a rest ih =>
    intro e he
    simp only [epoll_del] at he
    split at he
    · exact List.mem_cons_of_mem a he
    · simp only [List.mem_cons] at he
      rcases he with he | he
      · exact List.mem_cons.mpr (Or.inl he)
      · exact List.mem_cons_of_mem a (ih e he)

theorem entryInv_epoll_del (fd : Int) (s : EpollState)
    (h : ∀ e ∈ s.list, entryInv e) :
    ∀ e ∈ (epoll_del fd s.list).2, entryInv e :=
  fun e he => h e (epoll_del_subset fd s.list e he)

theorem eventpoll_notify_close_subset (fp : Nat) (s : EpollState) :
    ∀ e ∈ (eventpoll_notify_close fp s).list, e ∈ s.list := by
  show ∀ e ∈ (f_ep fp s.list).foldl _ s.list, e ∈ s.list
  generalize f_ep fp s.list = hooks
  induction hooks generalizing s with
  | nil => intro e he; exact he
  | cons a rest ih =>
    intro e he
    simp only [List.foldl_cons] at he
    have := ih { s with list := (epoll_del a.fd s.list).2 } e he
    exact epoll_del_subset a.fd s.list e this

theorem entryInv_epollGatherStep (now : Nat) (p : EpollEntry)
    (h : entryInv p) : entryInv (epollGatherStep now p).1 := by
  obtain ⟨hr, ht, hl⟩ := h
  simp only [epollGatherStep]
  split
  · split
    · split
      · exact ⟨subsetMask_zero _, ht, hl⟩
      · refine ⟨?_, ht, hl⟩
        show subsetMask (0 ||| (now &&& events2mask p.event.events)) _
        rw [Nat.zero_or]
        exact subsetMask_and_left _ _
    · exact ⟨subsetMask_zero _, ht, hl⟩
  · exact ⟨subsetMask_zero _, ht, hl⟩

theorem entryInv_epollGather (pollNow : Nat → Nat) (l : List EpollEntry)
    (idx budget : Nat) (h : ∀ e ∈ l, entryInv e) :
    ∀ e ∈ (epollGather pollNow l idx budget).1, entryInv e := by
  induction l generalizing idx budget with
  | nil =>
    intro e he
    cases budget <;> simp [epollGather] at he
  | cons a rest ih =>
    intro e he
    cases budget with
    | zero => exact h e he
    | succ b =>
      have hstep : entryInv (epollGatherStep (pollNow idx) a).1 :=
        entryInv_epollGatherStep _ a (h a (List.mem_cons_self a rest))
      have hrest : ∀ x ∈ rest, entryInv x :=
        fun x hx => h x (List.mem_cons_of_mem a hx)
      simp only [epollGather] at he
      split at he <;>
      · simp only [List.mem_cons] at he
        rcases he with he | he
        · rw [he]; exact hstep
        · exact ih _ _ hrest e he

theorem entryInv_epoll_wait_pass (pollNow : Nat → Nat) (maxevents : Nat)
    (s : EpollState) (h : ∀ e ∈ s.list, entryInv e) :
    ∀ e ∈ (epoll_wait_pass pollNow maxevents s).1.list, entryInv e := by
  exact entryInv_epollGather pollNow s.list 0 maxevents h

/-! ### Concrete entries and states used to instantiate theorems -/

def entEdge1 : EpollEntry :=
  { legacy := false, fd := 1, file := 10, event := ⟨EPOLLIN ||| EPOLLET, 101⟩,
    tickMask := events2mask (EPOLLIN ||| EPOLLET), legMask := 0,
    revents := EPOLLIN }

def entEdge2 : EpollEntry :=
  { legacy := false, fd := 2, file := 11, event := ⟨EPOLLIN ||| EPOLLET, 102⟩,
    tickMask := events2mask (EPOLLIN ||| EPOLLET), legMask := 0,
    revents := EPOLLIN }

def entLvl : EpollEntry :=
  { legacy := false, fd := 3, file := 12, event := ⟨EPOLLIN, 103⟩,
    tickMask := events2mask EPOLLIN, legMask := 0, revents := EPOLLIN }

def entLegacyOneshot : EpollEntry :=
  { legacy := true, fd := 4, file := 13,
    event := ⟨EPOLLIN ||| EPOLLONESHOT, 104⟩,
    tickMask := 0, legMask := events2mask (EPOLLIN ||| EPOLLONESHOT),
    revents := 0, f_link := true }

def entLegacy : EpollEntry :=
  { legacy := true, fd := 5, file := 14, event := ⟨EPOLLIN, 105⟩,
    tickMask := 0, legMask := events2mask EPOLLIN, revents := 0,
    f_link := true }

/-! ### Characterisation of the gather step on level-triggered entries -/

theorem epollGatherStep_level_zero (now : Nat) (p : EpollEntry)
    (hlvl : IS_EDGEPOLL p = false) (hne : p.revents ≠ 0)
    (hcur : now &&& events2mask p.event.events = 0) :
    epollGatherStep now p = ({ p with revents := 0 }, none, false) := by
  have h1 : (p.revents != 0) = true := bne_iff_ne.mpr hne
  have h2 : IS_EDGEPOLL { p with revents := 0 } = false := hlvl
  simp only [epollGatherStep, h1, h2, if_true, Bool.not_false]
  rw [if_pos hcur]

theorem epollGatherStep_level_pos (now : Nat) (p : EpollEntry)
    (hlvl : IS_EDGEPOLL p = false) (hne : p.revents ≠ 0)
    (hcur : now &&& events2mask p.event.events ≠ 0) :
    epollGatherStep now p =
      ({ p with revents := now &&& events2mask p.event.events },
       some ⟨now &&& events2mask p.event.events, p.event.data⟩, true) := by
  have h1 : (p.revents != 0) = true := bne_iff_ne.mpr hne
  have h2 : IS_EDGEPOLL { p with revents := 0 } = false := hlvl
  simp only [epollGatherStep, h1, h2, if_true, Bool.not_false]
  rw [if_neg hcur]
  simp [Nat.zero_or]

theorem epollGatherStep_edge (now : Nat) (p : EpollEntry)
    (hedge : IS_EDGEPOLL p = true) (hne : p.revents ≠ 0) :
    epollGatherStep now p =
      ({ p with revents := 0 }, some ⟨p.revents, p.event.data⟩, false) := by
  have h1 : (p.revents != 0) = true := bne_iff_ne.mpr hne
  have h2 : IS_EDGEPOLL { p with revents := 0 } = true := hedge
  simp [epollGatherStep, h1, h2]

theorem epollGatherStep_empty (now : Nat) (p : EpollEntry)
    (hz : p.revents = 0) :
    epollGatherStep now p = ({ p with revents := 0 }, none, false) := by
  simp [epollGatherStep, hz]

/-! ### Claim theorems -/

/-- Claim C2: every operation that writes an entry's accumulator — the
native notification callback's OR (under the pollqueue contract that the
delivered set lies within the hook's registered mask), the legacy signal
upcall's OR, the initial readiness sample of add (native and legacy,
including the legacy error path), modify's reset (native and legacy), and
the extraction walk's exchange and OR-back — preserves the invariant that
the accumulator holds only bits within the entry's effective mask
`events2mask(interest) = (interest ∩ EPOLL_EVENTS) ∪ UKFD_POLL_ALWAYS`. -/
theorem accumulator_within_effective_mask :
    (∀ set e, e.legacy = false → subsetMask set e.tickMask → entryInv e →
      entryInv (epoll_event_callback set e).1) ∧
    (∀ rv e, e.legacy = true → entryInv e →
      entryInv (eventpoll_signal rv e).1) ∧
    (∀ fd file event sample s, (∀ e ∈ s.list, entryInv e) →
      ∀ e ∈ (epoll_add fd file event sample s).2.list, entryInv e) ∧
    (∀ fd vf event pollRes s, (∀ e ∈ s.list, entryInv e) →
      ∀ e ∈ (epoll_add_legacy fd vf event pollRes s).2.list, entryInv e) ∧
    (∀ fd event pollRes s, (∀ e ∈ s.list, entryInv e) →
      ∀ e ∈ (epoll_mod fd event pollRes s).2.list, entryInv e) ∧
    (∀ (fd : Int) (s : EpollState), (∀ e ∈ s.list, entryInv e) →
      ∀ e ∈ (epoll_del fd s.list).2, entryInv e) ∧
    (∀ pollNow maxevents s, (∀ e ∈ s.list, entryInv e) →
      ∀ e ∈ (epoll_wait_pass pollNow maxevents s).1.list, entryInv e) :=
  ⟨fun set e hnat hset h => entryInv_epoll_event_callback set e h hnat hset,
   fun rv e hleg h => entryInv_eventpoll_signal rv e h hleg,
   fun fd file event sample s h =>
     entryInv_epoll_add fd file event sample s h,
   fun fd vf event pollRes s h =>
     entryInv_epoll_add_legacy fd vf event pollRes s h,
   fun fd event pollRes s h => entryInv_epoll_mod fd event pollRes s h,
   fun fd s h => entryInv_epoll_del fd s h,
   fun pollNow maxevents s h =>
     entryInv_epoll_wait_pass pollNow maxevents s h⟩

/-- Witness for C2 at concrete inputs: a native edge entry receiving a
readable notification, and a legacy entry receiving a signal. -/
theorem accumulator_within_effective_mask_witness :
    entryInv (epoll_event_callback EPOLLIN entEdge1).1 ∧
    entryInv (eventpoll_signal (EPOLLIN ||| EPOLLOUT) entLegacy).1 :=
  ⟨accumulator_within_effective_mask.1 EPOLLIN entEdge1 rfl (by decide)
     (by decide),
   accumulator_within_effective_mask.2.1 (EPOLLIN ||| EPOLLOUT) entLegacy
     rfl (by decide)⟩

/-- Claim C1: in the extraction walk of wait, a level-triggered
(non-edge) entry whose accumulator, exchanged with zero, was nonzero is
re-sampled for current readiness against its effective mask.  If the
re-sample is empty the entry yields no output slot and its accumulator
stays zero (nothing is re-armed); otherwise the re-sampled value — not
the exchanged bits — is written to the output slot and ORed back into the
accumulator, and after the walk the aggregator's readable bit is set
again.  Stated for the entry at the head of the registry with an output
budget of at least one. -/
theorem wait_level_triggered_resample (pollNow : Nat → Nat)
    (p : EpollEntry) (rest : List EpollEntry) (pi : Bool) (b : Nat)
    (hlvl : IS_EDGEPOLL p = false) (hne : p.revents ≠ 0) :
    (pollNow 0 &&& events2mask p.event.events = 0 →
      epoll_wait_pass pollNow (b + 1) ⟨p :: rest, pi⟩ =
        (⟨{ p with revents := 0 } ::
            (epollGather pollNow rest 1 (b + 1)).1,
          (epollGather pollNow rest 1 (b + 1)).2.2⟩,
         (epollGather pollNow rest 1 (b + 1)).2.1)) ∧
    (pollNow 0 &&& events2mask p.event.events ≠ 0 →
      epoll_wait_pass pollNow (b + 1) ⟨p :: rest, pi⟩ =
        (⟨{ p with revents := pollNow 0 &&& events2mask p.event.events } ::
            (epollGather pollNow rest 1 b).1,
          true⟩,
         ⟨pollNow 0 &&& events2mask p.event.events, p.event.data⟩ ::
           (epollGather pollNow rest 1 b).2.1)) := by
  constructor
  · intro hcur
    have hst := epollGatherStep_level_zero (pollNow 0) p hlvl hne hcur
    simp [epoll_wait_pass, epollGather, hst]
  · intro hcur
    have hst := epollGatherStep_level_pos (pollNow 0) p hlvl hne hcur
    simp [epoll_wait_pass, epollGather, hst]

/-- Witness for C1: the level entry `entLvl` with pending `EPOLLIN`.
When the file has gone idle (readiness oracle 0) the walk emits nothing
and leaves the accumulator zeroed; when the file reports
`EPOLLIN ||| EPOLLOUT` the delivered and re-armed value is the re-sample
masked to the interest mask, not the exchanged bits. -/
theorem wait_level_triggered_resample_witness :
    epoll_wait_pass (fun _ => 0) 1 ⟨[entLvl], false⟩ =
      (⟨[{ entLvl with revents := 0 }], false⟩, []) ∧
    epoll_wait_pass (fun _ => EPOLLIN ||| EPOLLOUT) 1 ⟨[entLvl], false⟩ =
      (⟨[{ entLvl with revents := EPOLLIN }], true⟩,
       [⟨EPOLLIN, 103⟩]) := by
  constructor
  · have h := (wait_level_triggered_resample (fun _ => 0) entLvl [] false 0
      (by decide) (by decide)).1 (by decide)
    exact h.trans (by decide)
  · have h := (wait_level_triggered_resample (fun _ => EPOLLIN ||| EPOLLOUT)
      entLvl [] false 0 (by decide) (by decide)).2 (by decide)
    exact h.trans (by decide)

theorem or_ne_zero_right (x : Nat) {y : Nat} (hy : y ≠ 0) :
    x ||| y ≠ 0 := by
  obtain ⟨i, hi⟩ := Nat.ne_zero_implies_bit_true hy
  intro h
  have h2 := congrArg (fun n => n.testBit i) h
  simp only [Nat.testBit_or, hi, Bool.or_true, Nat.zero_testBit] at h2
  cases h2

theorem epollGatherStep_edge_no_lvlev (now : Nat) (p : EpollEntry)
    (hedge : IS_EDGEPOLL p = true) : (epollGatherStep now p).2.2 = false := by
  by_cases hz : p.revents = 0
  · rw [epollGatherStep_empty now p hz]
  · rw [epollGatherStep_edge now p hedge hz]

theorem epollGather_all_edge_no_lvlev (pollNow : Nat → Nat)
    (l : List EpollEntry) (idx b : Nat)
    (h : ∀ e ∈ l, IS_EDGEPOLL e = true) :
    (epollGather pollNow l idx b).2.2 = false := by
  induction l generalizing idx b with
  | nil => cases b <;> simp [epollGather]
  | cons a rest ih =>
    cases b with
    | zero => simp [epollGather]
    | succ n =>
      have ha := epollGatherStep_edge_no_lvlev (pollNow idx) a
        (h a (List.mem_cons_self a rest))
      have hrest : ∀ e ∈ rest, IS_EDGEPOLL e = true :=
        fun e he => h e (List.mem_cons_of_mem a he)
      simp only [epollGather]
      split <;> simp [ha, ih _ _ hrest]

/-- Counterexample to claim C3: after a wait call that returns with the
output buffer full (`maxevents = 1`) from an edge-triggered entry, while
the second (unvisited) entry's accumulator remains nonzero, the
aggregator's readable bit is NOT still set: the walk cleared it and only
re-sets it when a level-triggered entry was re-levelled, which did not
happen here.  A subsequent wait would block despite the undelivered
pending entry. -/
theorem readable_bit_counterexample :
    uk_sys_epoll_pwait2 (fun _ => 0) true false 1 true none true
        ⟨[entEdge1, entEdge2], true⟩ =
      (1, ⟨[{ entEdge1 with revents := 0 }, entEdge2], false⟩,
       [⟨EPOLLIN, 101⟩]) ∧
    entEdge2.revents ≠ 0 := by decide

/-- Claim C3 as amended: operations that make an accumulator nonzero do
set the aggregator's readable bit — the legacy signal upcall posts it
whenever the masked bits are nonzero, and the native callback posts it
unconditionally on delivery — but the extraction walk clears the bit and
re-sets it exactly when the gather pass re-levelled some level-triggered
entry (`lvlev`); in particular after a walk over only edge-triggered
entries the readable bit is clear, even if accumulators of unvisited
entries remain nonzero. -/
theorem readable_bit_discipline :
    (∀ (rv : Nat) (e : EpollEntry), e.legacy = true →
      rv &&& e.legMask ≠ 0 →
      (eventpoll_signal rv e).2 = true ∧
        (eventpoll_signal rv e).1.revents ≠ 0) ∧
    (∀ (set : Nat) (e : EpollEntry),
      (epoll_event_callback set e).2 = true) ∧
    (∀ (fd : Int) (file : Nat) (event : EpollEvent) (sample : Nat)
        (s : EpollState),
      s.list.any (fun e => e.fd == fd) = false →
      sample &&& events2mask event.events ≠ 0 →
      (epoll_add fd file event sample s).2.pollin = true) ∧
    (∀ (fd : Int) (vf : Nat) (event : EpollEvent) (rv : Nat)
        (s : EpollState),
      s.list.any (fun e => e.fd == fd) = false →
      rv &&& events2mask event.events ≠ 0 →
      (epoll_add_legacy fd vf event (.ok rv) s).2.pollin = true) ∧
    (∀ (pollNow : Nat → Nat) (maxevents : Nat) (s : EpollState),
      (epoll_wait_pass pollNow maxevents s).1.pollin =
        (epollGather pollNow s.list 0 maxevents).2.2) ∧
    (∀ (pollNow : Nat → Nat) (maxevents : Nat) (s : EpollState),
      (∀ e ∈ s.list, IS_EDGEPOLL e = true) →
      (epoll_wait_pass pollNow maxevents s).1.pollin = false) := by
  refine ⟨?_, ?_, ?_, ?_, ?_, ?_⟩
  · intro rv e hleg hne
    have hb : (rv &&& e.legMask != 0) = true := bne_iff_ne.mpr hne
    constructor
    · simp [eventpoll_signal, hb]
    · simp only [eventpoll_signal, hb, if_true]
      exact or_ne_zero_right _ hne
  · intro set e
    simp [epoll_event_callback]
  · intro fd file event sample s hany hne
    have hb : (sample &&& events2mask event.events != 0) = true :=
      bne_iff_ne.mpr hne
    simp [epoll_add, hany, hb]
  · intro fd vf event rv s hany hne
    have hb : (rv &&& events2mask event.events != 0) = true :=
      bne_iff_ne.mpr hne
    simp [epoll_add_legacy, hany, vfs_poll_register, hb]
  · intro pollNow maxevents s
    rfl
  · intro pollNow maxevents s h
    exact epollGather_all_edge_no_lvlev pollNow s.list 0 maxevents h

/-- Witness for the amended C3: a legacy signal with in-mask bits posts
the readable bit, a native and a legacy add with a nonzero initial
sample post it, and the truncated all-edge wait pass of the
counterexample scenario leaves the readable bit clear. -/
theorem readable_bit_discipline_witness :
    ((eventpoll_signal EPOLLIN entLegacy).2 = true ∧
      (eventpoll_signal EPOLLIN entLegacy).1.revents ≠ 0) ∧
    (epoll_add 7 20 ⟨EPOLLIN, 200⟩ EPOLLIN ⟨[], false⟩).2.pollin =
      true ∧
    (epoll_add_legacy 8 21 ⟨EPOLLIN, 201⟩ (.ok EPOLLIN)
        ⟨[], false⟩).2.pollin = true ∧
    (epoll_wait_pass (fun _ => 0) 1
        ⟨[entEdge1, entEdge2], true⟩).1.pollin = false :=
  ⟨readable_bit_discipline.1 EPOLLIN entLegacy rfl (by decide),
   readable_bit_discipline.2.2.1 7 20 ⟨EPOLLIN, 200⟩ EPOLLIN ⟨[], false⟩
     rfl (by decide),
   readable_bit_discipline.2.2.2.1 8 21 ⟨EPOLLIN, 201⟩ EPOLLIN
     ⟨[], false⟩ rfl (by decide),
   readable_bit_discipline.2.2.2.2.2 (fun _ => 0) 1
     ⟨[entEdge1, entEdge2], true⟩ (by decide)⟩

/-- The gather walk with an exhausted output budget touches nothing: it
returns the registry verbatim, produces no output and no `lvlev` (the
loop condition `nout < maxevents` fails before any entry is examined). -/
theorem epollGather_budget_zero (pollNow : Nat → Nat)
    (l : List EpollEntry) (idx : Nat) :
    epollGather pollNow l idx 0 = (l, [], false) := by
  cases l <;> rfl

/-- The gather walk over an empty registry yields nothing. -/
theorem epollGather_nil (pollNow : Nat → Nat) (idx b : Nat) :
    epollGather pollNow [] idx b = ([], [], false) := by
  cases b <;> rfl

/-- The gather walk decomposes over an append of the registry: the
suffix is walked starting from the output budget left over by the
prefix. -/
theorem epollGather_append (pollNow : Nat → Nat)
    (l1 l2 : List EpollEntry) (idx b : Nat) :
    epollGather pollNow (l1 ++ l2) idx b =
      ((epollGather pollNow l1 idx b).1 ++
         (epollGather pollNow l2 (idx + l1.length)
           (b - (epollGather pollNow l1 idx b).2.1.length)).1,
       (epollGather pollNow l1 idx b).2.1 ++
         (epollGather pollNow l2 (idx + l1.length)
           (b - (epollGather pollNow l1 idx b).2.1.length)).2.1,
       (epollGather pollNow l1 idx b).2.2 ||
         (epollGather pollNow l2 (idx + l1.length)
           (b - (epollGather pollNow l1 idx b).2.1.length)).2.2) := by
  induction l1 generalizing idx b with
  | nil =>
    simp [epollGather_nil]
  | cons a rest ih =>
    cases b with
    | zero =>
      simp [epollGather_budget_zero]
    | succ n =>
      have hidx : idx + 1 + rest.length = idx + (rest.length + 1) := by
        omega
      cases hO : (epollGatherStep (pollNow idx) a).2.1 with
      | none =>
        simp only [List.cons_append, epollGather, hO, List.append_eq,
          ih (idx + 1) (n + 1), List.length_cons, hidx, Bool.or_assoc,
          Prod.mk.injEq]
      | some o =>
        simp only [List.cons_append, epollGather, hO, List.append_eq,
          ih (idx + 1) n, List.length_cons, hidx, Nat.succ_sub_succ,
          Bool.or_assoc, Prod.mk.injEq]

/-- Claim C10: if the extraction walk of wait fills all `maxevents`
output slots within a prefix of the registry, every entry after the last
visited one is left entirely untouched — the suffix of the registry is
returned verbatim (no accumulator is exchanged or modified, no
registration state changes), it contributes no output slots, and it
contributes no `lvlev` re-post. -/
theorem wait_truncation_frame (pollNow : Nat → Nat) (maxevents : Nat)
    (l1 l2 : List EpollEntry) (pi : Bool)
    (hfull : (epollGather pollNow l1 0 maxevents).2.1.length =
      maxevents) :
    (epoll_wait_pass pollNow maxevents ⟨l1 ++ l2, pi⟩).1.list =
      (epollGather pollNow l1 0 maxevents).1 ++ l2 ∧
    (epoll_wait_pass pollNow maxevents ⟨l1 ++ l2, pi⟩).2 =
      (epollGather pollNow l1 0 maxevents).2.1 ∧
    (epoll_wait_pass pollNow maxevents ⟨l1 ++ l2, pi⟩).1.pollin =
      (epollGather pollNow l1 0 maxevents).2.2 := by
  have hdecomp := epollGather_append pollNow l1 l2 0 maxevents
  rw [hfull, Nat.sub_self, epollGather_budget_zero] at hdecomp
  simp only [List.append_nil, Bool.or_false] at hdecomp
  refine ⟨?_, ?_, ?_⟩
  · show (epollGather pollNow (l1 ++ l2) 0 maxevents).1 = _
    rw [hdecomp]
  · show (epollGather pollNow (l1 ++ l2) 0 maxevents).2.1 = _
    rw [hdecomp]
  · show (epollGather pollNow (l1 ++ l2) 0 maxevents).2.2 = _
    rw [hdecomp]

/-- Witness for C10: with budget one, the walk fills its single output
slot on the first (edge, pending) entry and the second entry comes back
untouched, contributing neither an output nor a readable re-post. -/
theorem wait_truncation_frame_witness :
    (epoll_wait_pass (fun _ => 0) 1
        ⟨[entEdge1] ++ [entEdge2], true⟩).1.list =
      (epollGather (fun _ => 0) [entEdge1] 0 1).1 ++ [entEdge2] ∧
    (epoll_wait_pass (fun _ => 0) 1
        ⟨[entEdge1] ++ [entEdge2], true⟩).2 =
      (epollGather (fun _ => 0) [entEdge1] 0 1).2.1 ∧
    (epoll_wait_pass (fun _ => 0) 1
        ⟨[entEdge1] ++ [entEdge2], true⟩).1.pollin =
      (epollGather (fun _ => 0) [entEdge1] 0 1).2.2 :=
  wait_truncation_frame (fun _ => 0) 1 [entEdge1] [entEdge2] true
    (by decide)

/-- Counterexample to claim C4: a successful modify of a LEGACY entry
does not leave the accumulator zero — `entry_mod_legacy` resets it and
then re-runs `vfs_poll_register`, which re-samples the file; when the
vnode poll reports the file currently readable, the accumulator ends up
nonzero and the next extraction delivers an event without any new
readiness transition. -/
theorem modify_reset_counterexample :
    (epoll_mod 5 ⟨EPOLLIN, 105⟩ (.ok EPOLLIN) ⟨[entLegacy], false⟩).1 =
      0 ∧
    (epoll_mod 5 ⟨EPOLLIN, 105⟩ (.ok EPOLLIN) ⟨[entLegacy], false⟩).2 =
      ⟨[{ entLegacy with revents := EPOLLIN }], true⟩ ∧
    EPOLLIN ≠ 0 := by decide

/-- Claim C4 as amended: immediately after a successful modify the
accumulator of a NATIVE entry is zero; a LEGACY entry's accumulator is
reset but then re-filled by the fresh vnode-poll sample masked to the new
effective mask (or the synthetic `EPOLLERR` when that poll fails), so a
legacy entry may deliver currently-true readiness on the next extraction
without a new transition. -/
theorem modify_reset_behavior :
    (∀ (event : EpollEvent) (e : EpollEntry),
      (entry_mod event e).revents = 0) ∧
    (∀ (event : EpollEvent) (rv : Nat) (e : EpollEntry) (pollin : Bool),
      (entry_mod_legacy event (.ok rv) e pollin).1.revents =
        rv &&& events2mask event.events) ∧
    (∀ (event : EpollEvent) (r : Int) (e : EpollEntry) (pollin : Bool),
      (entry_mod_legacy event (.error r) e pollin).1.revents = EPOLLERR) :=
  ⟨fun _ _ => rfl, fun _ _ _ _ => rfl, fun _ _ _ _ => rfl⟩

/-- Native one-shot entry used to instantiate the one-shot theorems. -/
def entNatOneshot : EpollEntry :=
  { legacy := false, fd := 6, file := 15,
    event := ⟨EPOLLIN ||| EPOLLONESHOT, 106⟩,
    tickMask := events2mask (EPOLLIN ||| EPOLLONESHOT), legMask := 0,
    revents := 0 }

/-- Counterexample to claim C5: for a LEGACY one-shot entry, the signal
upcall never zeroes the registered interest — after a first delivery and
its extraction (accumulator exchanged to zero), a second signal updates
the accumulator and posts the aggregator again with no intervening
modify, so more than one delivery occurs between arming events. -/
theorem oneshot_legacy_counterexample :
    IS_ONESHOT entLegacyOneshot = true ∧
    entLegacyOneshot.legacy = true ∧
    (eventpoll_signal EPOLLIN entLegacyOneshot).1.revents = EPOLLIN ∧
    (eventpoll_signal EPOLLIN entLegacyOneshot).2 = true ∧
    (eventpoll_signal EPOLLIN
        { (eventpoll_signal EPOLLIN entLegacyOneshot).1 with
          revents := 0 }).1.revents = EPOLLIN ∧
    (eventpoll_signal EPOLLIN
        { (eventpoll_signal EPOLLIN entLegacyOneshot).1 with
          revents := 0 }).2 = true := by decide

/-- Claim C5 as amended: one-shot disarming happens on the NATIVE path
only — the first native callback delivery on a one-shot entry zeroes the
hook's interest mask, and once that mask is zero any delivery within it
is empty and leaves the accumulator unchanged, so the entry is silent
until re-armed by modify; the legacy signal upcall, by contrast, leaves
the stored interest mask and event record untouched and ignores the
one-shot option entirely. -/
theorem oneshot_native_only :
    (∀ (set : Nat) (e : EpollEntry), IS_ONESHOT e = true →
      (epoll_event_callback set e).1.tickMask = 0) ∧
    (∀ (set : Nat) (e : EpollEntry), e.tickMask = 0 →
      subsetMask set e.tickMask →
      (epoll_event_callback set e).1.revents = e.revents) ∧
    (∀ (rv : Nat) (e : EpollEntry),
      (eventpoll_signal rv e).1.legMask = e.legMask ∧
      (eventpoll_signal rv e).1.event = e.event) := by
  refine ⟨?_, ?_, ?_⟩
  · intro set e hos
    have h2 : IS_ONESHOT { e with revents := e.revents ||| set } = true :=
      hos
    simp [epoll_event_callback, h2]
  · intro set e htm hset
    have hz : set = 0 := by
      rw [subsetMask, htm, Nat.and_zero] at hset
      exact hset.symm
    subst hz
    simp only [epoll_event_callback, Nat.or_zero]
    split <;> rfl
  · intro rv e
    simp only [eventpoll_signal]
    split <;> exact ⟨rfl, rfl⟩

/-- Witness for the amended C5: delivering to the native one-shot entry
zeroes its hook mask, and a delivery within a zeroed mask leaves the
(now-disarmed) entry's accumulator unchanged. -/
theorem oneshot_native_only_witness :
    (epoll_event_callback EPOLLIN entNatOneshot).1.tickMask = 0 ∧
    (epoll_event_callback 0
        (epoll_event_callback EPOLLIN entNatOneshot).1).1.revents =
      (epoll_event_callback EPOLLIN entNatOneshot).1.revents :=
  ⟨oneshot_native_only.1 EPOLLIN entNatOneshot (by decide),
   oneshot_native_only.2.1 0 (epoll_event_callback EPOLLIN entNatOneshot).1
     (by decide) (by decide)⟩

/-- Counterexample to claim C6: adding a legacy file whose initial vnode
poll fails does succeed (returns 0) and sets the accumulator to the
synthetic `EPOLLERR`, but the aggregator is NOT posted readable — the
readiness post happens only on the successful-poll branch of
`vfs_poll_register`, so the final `pollin` is still `false` and a blocked
waiter is not woken for the error. -/
theorem legacy_add_error_counterexample :
    epoll_add_legacy 3 5 ⟨EPOLLIN, 11⟩ (.error (-EINVAL)) ⟨[], false⟩ =
      (0, ⟨[{ legacy := true, fd := 3, file := 5, event := ⟨EPOLLIN, 11⟩,
              tickMask := 0, legMask := events2mask EPOLLIN,
              revents := EPOLLERR }], false⟩) ∧
    EPOLLERR ≠ 0 := by decide

/-- Claim C6 as amended: adding a legacy file whose initial vnode poll
returns an error succeeds (add returns 0) and the new entry's accumulator
is the synthetic `EPOLLERR`, but the aggregator's readable bit is left
unchanged — it is NOT posted — so the error event sits in the
accumulator until some other wake lets an extraction pass deliver it. -/
theorem legacy_add_error_behavior (fd : Int) (vf : Nat)
    (event : EpollEvent) (r : Int) (s : EpollState)
    (hnew : s.list.any (fun e => e.fd == fd) = false) :
    epoll_add_legacy fd vf event (.error r) s =
      (0, ⟨s.list ++
            [{ legacy := true, fd := fd, file := vf, event := event,
               tickMask := 0, legMask := events2mask event.events,
               revents := EPOLLERR }], s.pollin⟩) := by
  simp [epoll_add_legacy, hnew, vfs_poll_register]

/-- Witness for the amended C6 on an empty registry. -/
theorem legacy_add_error_behavior_witness :
    epoll_add_legacy 3 5 ⟨EPOLLIN, 11⟩ (.error (-EINVAL)) ⟨[], false⟩ =
      (0, ⟨[{ legacy := true, fd := 3, file := 5, event := ⟨EPOLLIN, 11⟩,
              tickMask := 0, legMask := events2mask EPOLLIN,
              revents := EPOLLERR }], false⟩) := by
  have h := legacy_add_error_behavior 3 5 ⟨EPOLLIN, 11⟩ (-EINVAL)
    ⟨[], false⟩ (by decide)
  exact h.trans (by decide)

/-! ### Uniqueness-based characterisation of delete and close-notify -/

theorem epoll_del_eq_filter (fd : Int) (l : List EpollEntry)
    (hp : l.Pairwise (fun a b => a.fd ≠ b.fd)) :
    (epoll_del fd l).2 = l.filter (fun x => !(x.fd == fd)) := by
  induction l with
  | nil => rfl
  | cons a rest ih =>
    rw [List.pairwise_cons] at hp
    obtain ⟨hhead, htail⟩ := hp
    by_cases h1 : fd = a.fd
    · have hb : (fd == a.fd) = true := beq_iff_eq.mpr h1
      have hpa : (!(a.fd == fd)) = false := by
        simp [beq_iff_eq, h1.symm]
      simp only [epoll_del, hb, if_true, List.filter_cons, hpa,
        Bool.false_eq_true, if_false]
      symm
      rw [List.filter_eq_self]
      intro x hx
      have := hhead x hx
      simp [beq_iff_eq]
      intro hc
      exact this (hc.trans h1).symm
    · have hb : (fd == a.fd) = false := beq_eq_false_iff_ne.mpr h1
      have hpa : (!(a.fd == fd)) = true := by
        simp [beq_iff_eq]
        exact fun hc => h1 hc.symm
      simp only [epoll_del, hb, Bool.false_eq_true, if_false,
        List.filter_cons, hpa, if_true]
      rw [ih htail]

theorem epoll_del_ret_absent (fd : Int) (l : List EpollEntry)
    (h : ∀ e ∈ l, e.fd ≠ fd) : (epoll_del fd l).1 = -ENOENT := by
  induction l with
  | nil => rfl
  | cons a rest ih =>
    have hb : (fd == a.fd) = false :=
      beq_eq_false_iff_ne.mpr fun hc =>
        h a (List.mem_cons_self a rest) hc.symm
    simp only [epoll_del, hb, Bool.false_eq_true, if_false]
    exact ih fun e he => h e (List.mem_cons_of_mem a he)

theorem foldl_del_eq_filter (hs l : List EpollEntry)
    (hp : l.Pairwise (fun a b => a.fd ≠ b.fd)) :
    hs.foldl (fun acc e => (epoll_del e.fd acc).2) l =
      l.filter (fun x => hs.all (fun g => !(x.fd == g.fd))) := by
  induction hs generalizing l with
  | nil =>
    simp only [List.foldl_nil, List.all_nil]
    symm
    rw [List.filter_eq_self]
    intro x _
    rfl
  | cons g gs ih =>
    rw [List.foldl_cons, epoll_del_eq_filter g.fd l hp,
      ih _ (hp.filter _), List.filter_filter]
    apply List.filter_congr
    intro x _
    simp [List.all_cons, Bool.and_comm]

/-- Claim C7: the close-notify upcall for a closing legacy file visits
every hook on the file's epoll-link list and removes the corresponding
entry from its aggregator: afterwards exactly the entries watching that
file are gone, the file's epoll-link list (derived from the registry) is
empty, and — given that descriptor numbers are unique in the registry —
a subsequent delete of such a descriptor returns NotFound (`-ENOENT`). -/
theorem notify_close_detaches (fp : Nat) (s : EpollState)
    (hp : s.list.Pairwise (fun a b => a.fd ≠ b.fd)) :
    (eventpoll_notify_close fp s).list =
      s.list.filter (fun e => !(e.legacy && e.file == fp && e.f_link)) ∧
    f_ep fp (eventpoll_notify_close fp s).list = [] ∧
    (∀ fd, (∃ e ∈ s.list, e.fd = fd ∧ e.legacy = true ∧ e.file = fp ∧
        e.f_link = true) →
      (epoll_del fd (eventpoll_notify_close fp s).list).1 = -ENOENT) := by
  have hmain : (eventpoll_notify_close fp s).list =
      s.list.filter (fun e => !(e.legacy && e.file == fp && e.f_link)) := by
    show (f_ep fp s.list).foldl _ s.list = _
    rw [foldl_del_eq_filter _ _ hp]
    apply List.filter_congr
    intro x hx
    by_cases hpred : (x.legacy && x.file == fp && x.f_link) = true
    · have hxh : x ∈ f_ep fp s.list := List.mem_filter.mpr ⟨hx, hpred⟩
      rw [hpred, Bool.not_true]
      apply Bool.eq_false_iff.mpr
      intro hall
      have := List.all_eq_true.mp hall x hxh
      simp at this
    · have hpred2 : (x.legacy && x.file == fp && x.f_link) = false :=
        Bool.eq_false_iff.mpr hpred
      rw [hpred2, Bool.not_false]
      rw [List.all_eq_true]
      intro g hg
      obtain ⟨hgl, hgpred⟩ := List.mem_filter.mp hg
      have hne : x ≠ g := fun hc => hpred (hc ▸ hgpred)
      have hfd : x.fd ≠ g.fd :=
        hp.forall (fun _ _ h => h.symm) hx hgl hne
      simp [beq_iff_eq, hfd]
  refine ⟨hmain, ?_, ?_⟩
  · rw [hmain]
    apply List.filter_eq_nil_iff.mpr
    intro a ha
    obtain ⟨_, hq⟩ := List.mem_filter.mp ha
    simp only [Bool.not_eq_true'] at hq
    simp [hq]
  · intro fd ⟨e0, he0, hfd0, hleg0, hfp0, hlink0⟩
    apply epoll_del_ret_absent
    intro x hx
    rw [hmain] at hx
    obtain ⟨hxl, hq⟩ := List.mem_filter.mp hx
    intro hc
    have hne : x ≠ e0 := by
      intro hxe
      simp [hxe, hleg0, hfp0, hlink0] at hq
    have := hp.forall (fun _ _ h => h.symm) hxl he0 hne
    exact this (hc.trans hfd0.symm)

/-- Witness for C7: a registry holding one legacy entry watching file 14
and one native entry; closing file 14 removes exactly the legacy entry
and a delete of its descriptor then reports NotFound. -/
theorem notify_close_detaches_witness :
    (eventpoll_notify_close 14 ⟨[entLegacy, entEdge1], false⟩).list =
      [entEdge1] ∧
    (epoll_del 5
      (eventpoll_notify_close 14
        ⟨[entLegacy, entEdge1], false⟩).list).1 = -ENOENT := by
  have h := notify_close_detaches 14 ⟨[entLegacy, entEdge1], false⟩
    (by simp [List.pairwise_cons]; decide)
  exact ⟨h.1.trans (by decide),
    h.2.2 5 ⟨entLegacy, List.mem_cons_self _ _, rfl, rfl, rfl, rfl⟩⟩

/-- Claim C8: adding a descriptor that is already present in the
aggregator's registry — through the native or the legacy add path —
fails with AlreadyPresent (`-EEXIST`) and leaves the aggregator state
(registry, entries, accumulators, readable bit) entirely unchanged. -/
theorem add_duplicate_rejected (fd : Int) (file vf : Nat)
    (event : EpollEvent) (sample : Nat) (pollRes : Except Int Nat)
    (s : EpollState) (hdup : ∃ e ∈ s.list, e.fd = fd) :
    epoll_add fd file event sample s = (-EEXIST, s) ∧
    epoll_add_legacy fd vf event pollRes s = (-EEXIST, s) := by
  have hany : s.list.any (fun e => e.fd == fd) = true := by
    obtain ⟨e, he, hfd⟩ := hdup
    exact List.any_eq_true.mpr ⟨e, he, beq_iff_eq.mpr hfd⟩
  constructor
  · simp [epoll_add, hany]
  · simp [epoll_add_legacy, hany]

/-- Witness for C8: re-adding descriptor 1, already held by `entEdge1`. -/
theorem add_duplicate_rejected_witness :
    epoll_add 1 99 ⟨EPOLLOUT, 7⟩ 0 ⟨[entEdge1], false⟩ =
      (-EEXIST, ⟨[entEdge1], false⟩) ∧
    epoll_add_legacy 1 99 ⟨EPOLLOUT, 7⟩ (.ok 0) ⟨[entEdge1], false⟩ =
      (-EEXIST, ⟨[entEdge1], false⟩) :=
  add_duplicate_rejected 1 99 99 ⟨EPOLLOUT, 7⟩ 0 (.ok 0) ⟨[entEdge1], false⟩
    ⟨entEdge1, List.mem_cons_self _ _, rfl⟩

/-- Claim C9: argument validation of wait on a valid aggregator, in the
order the code tests them: a NULL output buffer yields Fault
(`-EFAULT`); with a non-NULL buffer, `maxevents < 1` yields InvalidArg
(`-EINVAL`); with valid buffer and count, a non-NULL signal mask yields
NotImplemented (`-ENOSYS`); with a NULL signal mask, a timeout that
converts to a negative duration yields InvalidArg (`-EINVAL`).  In every
case no events are delivered and the registry, accumulators and readable
bit are returned unchanged. -/
theorem pwait_argument_validation :
    (∀ (pollNow : Nat → Nat) (maxevents : Int) (smN : Bool)
        (tmo : Option Int) (ready : Bool) (s : EpollState),
      uk_sys_epoll_pwait2 pollNow true true maxevents smN tmo ready s =
        (-EFAULT, s, [])) ∧
    (∀ (pollNow : Nat → Nat) (maxevents : Int) (smN : Bool)
        (tmo : Option Int) (ready : Bool) (s : EpollState),
      maxevents ≤ 0 →
      uk_sys_epoll_pwait2 pollNow true false maxevents smN tmo ready s =
        (-EINVAL, s, [])) ∧
    (∀ (pollNow : Nat → Nat) (maxevents : Int) (tmo : Option Int)
        (ready : Bool) (s : EpollState),
      0 < maxevents →
      uk_sys_epoll_pwait2 pollNow true false maxevents false tmo ready s =
        (-ENOSYS, s, [])) ∧
    (∀ (pollNow : Nat → Nat) (maxevents t : Int) (ready : Bool)
        (s : EpollState),
      0 < maxevents → t < 0 →
      uk_sys_epoll_pwait2 pollNow true false maxevents true (some t)
        ready s = (-EINVAL, s, [])) := by
  refine ⟨?_, ?_, ?_, ?_⟩
  · intro pollNow maxevents smN tmo ready s
    simp [uk_sys_epoll_pwait2]
  · intro pollNow maxevents smN tmo ready s hmax
    simp [uk_sys_epoll_pwait2, hmax]
  · intro pollNow maxevents tmo ready s hmax
    simp [uk_sys_epoll_pwait2, Int.not_le.mpr hmax]
  · intro pollNow maxevents t ready s hmax ht
    simp [uk_sys_epoll_pwait2, Int.not_le.mpr hmax, ht]

/-- Witness for C9: the four rejected calls on a one-entry aggregator,
each leaving the state untouched and delivering nothing. -/
theorem pwait_argument_validation_witness :
    uk_sys_epoll_pwait2 (fun _ => 0) true true 1 true none true
        ⟨[entEdge1], true⟩ = (-EFAULT, ⟨[entEdge1], true⟩, []) ∧
    uk_sys_epoll_pwait2 (fun _ => 0) true false 0 true none true
        ⟨[entEdge1], true⟩ = (-EINVAL, ⟨[entEdge1], true⟩, []) ∧
    uk_sys_epoll_pwait2 (fun _ => 0) true false 1 false none true
        ⟨[entEdge1], true⟩ = (-ENOSYS, ⟨[entEdge1], true⟩, []) ∧
    uk_sys_epoll_pwait2 (fun _ => 0) true false 1 true (some (-5)) true
        ⟨[entEdge1], true⟩ = (-EINVAL, ⟨[entEdge1], true⟩, []) :=
  ⟨pwait_argument_validation.1 (fun _ => 0) 1 true none true _,
   pwait_argument_validation.2.1 (fun _ => 0) 0 true none true _
     (by decide),
   pwait_argument_validation.2.2.1 (fun _ => 0) 1 none true _
     (by decide),
   pwait_argument_validation.2.2.2 (fun _ => 0) 1 (-5) true _
     (by decide) (by decide)⟩

end EpollModel
